import Mathlib

/-
Verification of the Nodisan CLI core (src/index.js): the topic registry
(`kafka:topics`), the topic migrator (`kafka:migrate`) and the container
lifecycle commands (`kafka:create`, `kafka:start`).

External effects are made explicit: file contents are `Option String`
(`none` = file absent), the container-runtime probe results are the stdout
strings of the two `docker ps` queries, and broker/runtime actions are
recorded in a trace.  JS string methods (`split`, `join`, `trim`,
`filter(Boolean)`) are modelled at the character-list level; `trim` is
modelled for ASCII whitespace, which covers every string this program
manipulates.
-/

namespace Nodisan

/-- ASCII whitespace, the fragment of JS `trim`'s whitespace class used here. -/
def isSpaceChar (c : Char) : Bool :=
  c = ' ' || c = '\t' || c = '\n' || c = '\r'

/-- Model of JS `String.prototype.trim` on a character list. -/
def trimChars (l : List Char) : List Char :=
  ((l.dropWhile isSpaceChar).reverse.dropWhile isSpaceChar).reverse

/-- Model of JS `String.prototype.trim`. -/
def trimStr (s : String) : String :=
  String.mk (trimChars s.data)

/-- Model of JS `String.prototype.split` with a one-character separator,
on character lists.  `split` of the empty string is `[[]]`, matching JS. -/
def splitCharList (sep : Char) : List Char → List (List Char)
  | [] => [[]]
  | c :: cs =>
    if c = sep then [] :: splitCharList sep cs
    else
      match splitCharList sep cs with
      | [] => [[c]]
      | r :: rs => (c :: r) :: rs

/-- Model of JS `Array.prototype.join` with a one-character separator,
on character lists. -/
def joinChar (sep : Char) : List (List Char) → List Char
  | [] => []
  | [l] => l
  | l :: l' :: ls => l ++ sep :: joinChar sep (l' :: ls)

/-- JS `s.split(sep)` for a one-character separator. -/
def splitStr (sep : Char) (s : String) : List String :=
  (splitCharList sep s.data).map String.mk

/-- JS `list.join(sep)` for a one-character separator. -/
def joinStrings (sep : Char) (ls : List String) : String :=
  String.mk (joinChar sep (ls.map String.data))

/-- JS `list.filter(Boolean)` on a string array: keeps the truthy
(non-empty) strings. -/
def filterBoolean (l : List String) : List String :=
  l.filter (fun s => s ≠ "")

/-- Model of iterating a JS `Set` built by inserting the elements of `l`
after the elements of `seen`: keeps the first occurrence of each element
not already seen. -/
def setFromAux (seen : List String) : List String → List String
  | [] => []
  | x :: xs =>
    if x ∈ seen then setFromAux seen xs
    else x :: setFromAux (x :: seen) xs

/-- Model of JS `Array.from(new Set(l))`. -/
def setFrom (l : List String) : List String :=
  setFromAux [] l

/-- `answers.topics.split(',').map(topic => topic.trim())`
(src/index.js line 223). -/
def newTopics (input : String) : List String :=
  (splitStr ',' input).map trimStr

/-- The `existingTopics` computation of `generateTopicsList`
(src/index.js lines 227-231): `[]` when the file is absent, otherwise
`fileContent.split('\x27\n\x27').filter(Boolean)`. -/
def existingTopics : Option String → List String
  | none => []
  | some c => filterBoolean (splitStr '\n' c)

/-- `Array.from(new Set([...existingTopics, ...newTopics]))`
(src/index.js line 234). -/
def combinedTopics (input : String) (file : Option String) : List String :=
  setFrom (existingTopics file ++ newTopics input)

/-- The content written back to `topics.txt` by `kafka:topics`
(src/index.js lines 237-238): `combinedTopics.join('\n')`. -/
def generateTopicsList (input : String) (file : Option String) : String :=
  joinStrings '\n' (combinedTopics input file)

/-- The registry `Merge` operation as implemented by line 234 of
src/index.js: dedup the concatenation, keeping first occurrences. -/
def Merge (existing incoming : List String) : List String :=
  setFrom (existing ++ incoming)

/-- The registry `Save` operation (src/index.js lines 237-238): newline-join
the entries; the result overwrites the file. -/
def Save (l : List String) : String :=
  joinStrings '\n' l

/-- Modelled from the spec words for `Merge`: keep, of a list, the first
appearance of each element not already among `seen`. -/
def dedupFirstAux (seen : List String) : List String → List String
  | [] => []
  | x :: xs =>
    if x ∈ seen then dedupFirstAux seen xs
    else x :: dedupFirstAux (x :: seen) xs

/-- Modelled from the spec words: the subsequence of first appearances. -/
def dedupFirst (l : List String) : List String :=
  dedupFirstAux [] l

/-- Modelled from the spec: `Merge(existing, incoming)` returns `existing`
concatenated with the subsequence of `incoming` whose elements are not
already present in `existing`, keeping first appearances. -/
def mergeSpec (existing incoming : List String) : List String :=
  existing ++ dedupFirst (incoming.filter (fun y => y ∉ existing))

/-- Modelled from the spec: `Load()` returns the ordered sequence of
non-empty, whitespace-trimmed lines; absence of the file yields `[]`. -/
def loadTrimmedSpec : Option String → List String
  | none => []
  | some c => filterBoolean ((splitStr '\n' c).map trimStr)

/-- External actions the CLI dispatches against the container runtime and
the broker. -/
inductive Action where
  | createContainer (name image portMapping : String)
  | startContainer (name : String)
  | createTopic (name bootstrap : String)
deriving DecidableEq

/-- Console output: `console.log` is `info`, `console.error` is `error`. -/
inductive Report where
  | info (msg : String)
  | error (msg : String)
deriving DecidableEq

/-- Whether a report is an error report. -/
def Report.isError : Report → Bool
  | Report.error _ => true
  | Report.info _ => false

/-- Number of error reports in a report trace. -/
def errCount (rs : List Report) : Nat :=
  (rs.filter Report.isError).length

/-- `kafka:create` (src/index.js lines 158-180), as a function of the
stdout of `docker ps -aq -f name=kafka-server`.  Returns the dispatched
actions and the console reports. -/
def createKafkaContainer (psAll : String) : List Action × List Report :=
  if trimStr psAll ≠ "" then
    ([], [Report.info "The container kafka-server already exists."])
  else
    ([Action.createContainer "kafka-server" "apache/kafka:3.8.0" "9092:9092"],
     [Report.info "Creating the container kafka-server...",
      Report.info "Container kafka-server created and running."])

/-- `kafka:start` (src/index.js lines 182-209), as a function of the
stdout of `docker ps -aq -f name=kafka-server` and of
`docker ps -q -f name=kafka-server`. -/
def startKafkaContainer (psAll psRunning : String) : List Action × List Report :=
  if trimStr psAll = "" then
    ([], [Report.error "Error: The container does not exist."])
  else if trimStr psRunning ≠ "" then
    ([], [Report.info "The container kafka-server is already running."])
  else
    ([Action.startContainer "kafka-server"],
     [Report.info "Starting the container kafka-server...",
      Report.info "Container kafka-server started."])

/-- `readFileSync(topicsFile).split('\x27\n\x27').filter(Boolean)`
(src/index.js line 257). -/
def loadLines (c : String) : List String :=
  filterBoolean (splitStr '\n' c)

/-- The migration loop (src/index.js lines 259-263) inside its `try`:
`fails t = some msg` means the creation request for `t` fails with message
`msg` and the thrown error is caught, ending the loop; `fails t = none`
means it succeeds. -/
def migrateLoop (fails : String → Option String) : List String → List Action × List Report
  | [] => ([], [])
  | t :: ts =>
    match fails t with
    | some msg =>
      ([Action.createTopic t "localhost:9092"],
       [Report.info ("Creating the topic " ++ t ++ "..."), Report.error msg])
    | none =>
      let r := migrateLoop fails ts
      (Action.createTopic t "localhost:9092" :: r.1,
       Report.info ("Creating the topic " ++ t ++ "...") ::
         Report.info ("Topic " ++ t ++ " created successfully.") :: r.2)

/-- `kafka:migrate` (src/index.js lines 245-268), as a function of the
registry file content and the broker's behaviour. -/
def kafkaMigrate (file : Option String) (fails : String → Option String) :
    List Action × List Report :=
  match file with
  | none => ([], [Report.error "Error: The topics.txt file does not exist."])
  | some c => migrateLoop fails (loadLines c)

/- Helper lemmas about the split/join models. -/

theorem splitCharList_ne_nil (sep : Char) (l : List Char) : splitCharList sep l ≠ [] := by
  induction l with
  | nil => simp [splitCharList]
  | cons c cs ih =>
    simp only [splitCharList]
    by_cases h : c = sep
    · simp [h]
    · simp only [if_neg h]
      cases hs : splitCharList sep cs with
      | nil => simp
      | cons r rs => simp

theorem splitCharList_no_sep (sep : Char) (cs : List Char) (h : sep ∉ cs) :
    splitCharList sep cs = [cs] := by
  induction cs with
  | nil => rfl
  | cons c cs ih =>
    simp only [List.mem_cons, not_or] at h
    have hcs : ¬ c = sep := fun hc => h.1 hc.symm
    simp only [splitCharList, if_neg hcs]
    rw [ih h.2]

theorem splitCharList_append_sep (sep : Char) (l rest : List Char) (h : sep ∉ l) :
    splitCharList sep (l ++ sep :: rest) = l :: splitCharList sep rest := by
  induction l with
  | nil => simp [splitCharList]
  | cons c cs ih =>
    simp only [List.mem_cons, not_or] at h
    have hcs : ¬ c = sep := fun hc => h.1 hc.symm
    simp only [List.cons_append, splitCharList, if_neg hcs, List.append_eq]
    rw [ih h.2]

theorem splitCharList_joinChar (sep : Char) :
    ∀ ls : List (List Char), ls ≠ [] → (∀ l ∈ ls, sep ∉ l) →
      splitCharList sep (joinChar sep ls) = ls
  | [], hne, _ => absurd rfl hne
  | [l], _, hsep => by
    simpa [joinChar] using splitCharList_no_sep sep l (hsep l (by simp))
  | l :: l' :: ls, _, hsep => by
    have ih := splitCharList_joinChar sep (l' :: ls) (by simp)
      (fun x hx => hsep x (List.mem_cons_of_mem _ hx))
    simp only [joinChar]
    rw [splitCharList_append_sep sep l _ (hsep l (List.mem_cons_self _ _)), ih]

theorem mem_splitCharList_not_sep (sep : Char) (cs : List Char) :
    ∀ l ∈ splitCharList sep cs, sep ∉ l := by
  induction cs with
  | nil =>
    intro l hl
    simp only [splitCharList, List.mem_singleton] at hl
    subst hl; simp
  | cons c cs ih =>
    intro l hl
    simp only [splitCharList] at hl
    by_cases h : c = sep
    · rw [if_pos h] at hl
      rcases List.mem_cons.mp hl with h1 | h1
      · subst h1; simp
      · exact ih l h1
    · rw [if_neg h] at hl
      cases hs : splitCharList sep cs with
      | nil => exact absurd hs (splitCharList_ne_nil sep cs)
      | cons r rs =>
        rw [hs] at hl
        rcases List.mem_cons.mp hl with h1 | h1
        · subst h1
          intro hmem
          rcases List.mem_cons.mp hmem with h2 | h2
          · exact h h2.symm
          · exact ih r (by rw [hs]; exact List.mem_cons_self _ _) h2
        · exact ih l (by rw [hs]; exact List.mem_cons_of_mem _ h1)

theorem splitStr_ne_nil (sep : Char) (s : String) : splitStr sep s ≠ [] := by
  unfold splitStr
  simp only [ne_eq, List.map_eq_nil_iff]
  exact splitCharList_ne_nil sep s.data

theorem mem_splitStr_not_sep (sep : Char) (s : String) :
    ∀ t ∈ splitStr sep s, sep ∉ t.data := by
  intro t ht
  unfold splitStr at ht
  rcases List.mem_map.mp ht with ⟨l, hl, rfl⟩
  exact mem_splitCharList_not_sep sep s.data l hl

theorem splitStr_joinStrings (sep : Char) (ls : List String) (hne : ls ≠ [])
    (hsep : ∀ s ∈ ls, sep ∉ s.data) :
    splitStr sep (joinStrings sep ls) = ls := by
  unfold splitStr joinStrings
  rw [show (String.mk (joinChar sep (ls.map String.data))).data
        = joinChar sep (ls.map String.data) from rfl]
  rw [splitCharList_joinChar sep (ls.map String.data) (by simpa using hne)
    (by intro l hl; rcases List.mem_map.mp hl with ⟨s, hs, rfl⟩; exact hsep s hs)]
  rw [List.map_map]
  have hid : (String.mk ∘ String.data) = (id : String → String) := funext fun s => rfl
  rw [hid, List.map_id]

/- Helper lemmas about the JS-Set model. -/

theorem mem_setFromAux (a : String) :
    ∀ (seen l : List String), a ∈ setFromAux seen l ↔ a ∈ l ∧ a ∉ seen
  | seen, [] => by simp [setFromAux]
  | seen, x :: xs => by
    simp only [setFromAux]
    by_cases hx : x ∈ seen
    · rw [if_pos hx, mem_setFromAux a seen xs]
      constructor
      · rintro ⟨h1, h2⟩
        exact ⟨List.mem_cons_of_mem _ h1, h2⟩
      · rintro ⟨h1, h2⟩
        rcases List.mem_cons.mp h1 with rfl | h1
        · exact absurd hx h2
        · exact ⟨h1, h2⟩
    · rw [if_neg hx]
      simp only [List.mem_cons, mem_setFromAux a (x :: seen) xs]
      constructor
      · rintro (rfl | ⟨h1, h2⟩)
        · exact ⟨Or.inl rfl, hx⟩
        · simp only [List.mem_cons, not_or] at h2
          exact ⟨Or.inr h1, h2.2⟩
      · rintro ⟨rfl | h1, h2⟩
        · exact Or.inl rfl
        · by_cases hax : a = x
          · exact Or.inl hax
          · exact Or.inr ⟨h1, by simp [hax, h2]⟩

theorem nodup_setFromAux : ∀ (seen l : List String), (setFromAux seen l).Nodup
  | seen, [] => by simp [setFromAux]
  | seen, x :: xs => by
    simp only [setFromAux]
    by_cases hx : x ∈ seen
    · rw [if_pos hx]
      exact nodup_setFromAux seen xs
    · rw [if_neg hx]
      refine List.nodup_cons.mpr ⟨fun hmem => ?_, nodup_setFromAux (x :: seen) xs⟩
      exact ((mem_setFromAux x (x :: seen) xs).mp hmem).2 (List.mem_cons_self _ _)

theorem setFromAux_congr_seen :
    ∀ (s₁ s₂ l : List String), (∀ a, a ∈ s₁ ↔ a ∈ s₂) →
      setFromAux s₁ l = setFromAux s₂ l
  | _, _, [], _ => rfl
  | s₁, s₂, x :: xs, h => by
    simp only [setFromAux]
    by_cases hx : x ∈ s₁
    · rw [if_pos hx, if_pos ((h x).mp hx)]
      exact setFromAux_congr_seen s₁ s₂ xs h
    · rw [if_neg hx, if_neg (fun hc => hx ((h x).mpr hc))]
      rw [setFromAux_congr_seen (x :: s₁) (x :: s₂) xs
        (fun a => by simp only [List.mem_cons, h a])]

theorem setFromAux_filter_seen :
    ∀ (s₁ s₂ l : List String),
      setFromAux (s₁ ++ s₂) l = setFromAux s₁ (l.filter (fun y => y ∉ s₂))
  | _, _, [] => rfl
  | s₁, s₂, x :: xs => by
    by_cases hx2 : x ∈ s₂
    · have hd : (decide (x ∉ s₂)) = false := by simp [hx2]
      simp only [List.filter_cons, hd, if_false, Bool.false_eq_true]
      simp only [setFromAux, if_pos (List.mem_append.mpr (Or.inr hx2))]
      exact setFromAux_filter_seen s₁ s₂ xs
    · have hd : (decide (x ∉ s₂)) = true := by simp [hx2]
      simp only [List.filter_cons, hd, if_true]
      by_cases hx1 : x ∈ s₁
      · simp only [setFromAux, if_pos (List.mem_append.mpr (Or.inl hx1)), if_pos hx1]
        exact setFromAux_filter_seen s₁ s₂ xs
      · have hmem : x ∉ s₁ ++ s₂ := by
          simp only [List.mem_append, not_or]
          exact ⟨hx1, hx2⟩
        simp only [setFromAux, if_neg hmem, if_neg hx1]
        rw [show x :: (s₁ ++ s₂) = (x :: s₁) ++ s₂ from rfl]
        rw [setFromAux_filter_seen (x :: s₁) s₂ xs]

theorem setFromAux_nodup_append :
    ∀ (ex seen inc : List String), ex.Nodup → (∀ a ∈ ex, a ∉ seen) →
      setFromAux seen (ex ++ inc) = ex ++ setFromAux (ex.reverse ++ seen) inc
  | [], seen, inc, _, _ => by simp
  | x :: ex, seen, inc, hnd, hdisj => by
    have hx : x ∉ seen := hdisj x (List.mem_cons_self _ _)
    simp only [List.cons_append, setFromAux, if_neg hx, List.append_eq]
    rw [setFromAux_nodup_append ex (x :: seen) inc (List.nodup_cons.mp hnd).2
      (by
        intro a ha
        simp only [List.mem_cons, not_or]
        exact ⟨fun he => (List.nodup_cons.mp hnd).1 (he ▸ ha),
               hdisj a (List.mem_cons_of_mem _ ha)⟩)]
    simp [List.reverse_cons, List.append_assoc]

theorem dedupFirstAux_eq_setFromAux :
    ∀ (seen l : List String), dedupFirstAux seen l = setFromAux seen l
  | _, [] => rfl
  | seen, x :: xs => by
    simp only [dedupFirstAux, setFromAux]
    by_cases hx : x ∈ seen
    · rw [if_pos hx, if_pos hx, dedupFirstAux_eq_setFromAux seen xs]
    · rw [if_neg hx, if_neg hx, dedupFirstAux_eq_setFromAux (x :: seen) xs]

theorem Merge_eq_mergeSpec (ex inc : List String) (h : ex.Nodup) :
    Merge ex inc = mergeSpec ex inc := by
  unfold Merge mergeSpec setFrom dedupFirst
  rw [setFromAux_nodup_append ex [] inc h (by simp)]
  rw [List.append_nil]
  rw [setFromAux_congr_seen ex.reverse ex inc (fun a => by simp)]
  rw [dedupFirstAux_eq_setFromAux]
  rw [show setFromAux ex inc = setFromAux ([] ++ ex) inc from rfl]
  rw [setFromAux_filter_seen [] ex inc]

/- Helper lemmas about report traces and the migration loop. -/

theorem errCount_nil : errCount [] = 0 := rfl

theorem errCount_info_cons (m : String) (rs : List Report) :
    errCount (Report.info m :: rs) = errCount rs := by
  simp [errCount, List.filter_cons, Report.isError]

theorem errCount_error_cons (m : String) (rs : List Report) :
    errCount (Report.error m :: rs) = errCount rs + 1 := by
  simp [errCount, List.filter_cons, Report.isError]

theorem migrateLoop_fail_fast (fails : String → Option String) (t msg : String)
    (post : List String) (hfail : fails t = some msg) :
    ∀ pre : List String, (∀ s ∈ pre, fails s = none) →
      (migrateLoop fails (pre ++ t :: post)).1
          = (pre ++ [t]).map (fun s => Action.createTopic s "localhost:9092")
        ∧ errCount (migrateLoop fails (pre ++ t :: post)).2 = 1
  | [], _ => by
    simp only [List.nil_append, migrateLoop, hfail]
    exact ⟨rfl, by rw [errCount_info_cons, errCount_error_cons, errCount_nil]⟩
  | p :: pre, hpre => by
    have hp : fails p = none := hpre p (List.mem_cons_self _ _)
    have ih := migrateLoop_fail_fast fails t msg post hfail pre
      (fun s hs => hpre s (List.mem_cons_of_mem _ hs))
    simp only [List.cons_append, migrateLoop, hp, List.append_eq]
    constructor
    · simp only [List.cons_append, List.map_cons]
      exact congrArg (Action.createTopic p "localhost:9092" :: ·) ih.1
    · rw [errCount_info_cons, errCount_info_cons]
      exact ih.2

/- C1 -/

/-- C1 counterexample: submitting `"x, , y"` on an empty registry writes the
file content `"x\n\ny"`, whose line sequence contains an empty entry, so the
registry file does not satisfy the claimed no-empty-entries invariant. -/
theorem topics_file_empty_entry_cex :
    generateTopicsList "x, , y" none = "x\n\ny"
    ∧ "" ∈ splitStr '\n' (generateTopicsList "x, , y" none) := by
  constructor
  · decide
  · decide

/-- C1 (amended): provided every trimmed candidate is non-empty and contains
no newline, after a `kafka:topics` invocation the registry file's line
sequence equals the first-appearance deduplication of the previously
persisted names followed by the candidates: it is exactly their union, free
of duplicates and of empty entries. -/
theorem topics_invocation_invariant (input : String) (file : Option String)
    (hc : ∀ c ∈ newTopics input, c ≠ "" ∧ '\n' ∉ c.data) :
    splitStr '\n' (generateTopicsList input file) = combinedTopics input file
    ∧ combinedTopics input file
        = dedupFirst (existingTopics file ++ newTopics input)
    ∧ (combinedTopics input file).Nodup
    ∧ (∀ s, s ∈ combinedTopics input file
          ↔ s ∈ existingTopics file ∨ s ∈ newTopics input)
    ∧ "" ∉ combinedTopics input file := by
  have hmem : ∀ s, s ∈ combinedTopics input file
      ↔ s ∈ existingTopics file ∨ s ∈ newTopics input := by
    intro s
    unfold combinedTopics setFrom
    rw [mem_setFromAux s [] (existingTopics file ++ newTopics input)]
    simp [List.mem_append]
  have hexist : ∀ s ∈ existingTopics file, s ≠ "" ∧ '\n' ∉ s.data := by
    intro s hs
    cases file with
    | none => cases hs
    | some c =>
      unfold existingTopics filterBoolean at hs
      rcases List.mem_filter.mp hs with ⟨hs1, hs2⟩
      refine ⟨by simpa using hs2, mem_splitStr_not_sep '\n' c s hs1⟩
  have helem : ∀ s ∈ combinedTopics input file, s ≠ "" ∧ '\n' ∉ s.data := by
    intro s hs
    rcases (hmem s).mp hs with h | h
    · exact hexist s h
    · exact hc s h
  have hnonempty : combinedTopics input file ≠ [] := by
    have h1 : newTopics input ≠ [] := by
      unfold newTopics
      simp only [ne_eq, List.map_eq_nil_iff]
      exact splitStr_ne_nil ',' input
    rcases List.exists_mem_of_ne_nil _ h1 with ⟨c0, hc0⟩
    intro hcon
    have : c0 ∈ combinedTopics input file := (hmem c0).mpr (Or.inr hc0)
    rw [hcon] at this
    cases this
  refine ⟨?_, ?_, ?_, hmem, ?_⟩
  · unfold generateTopicsList
    exact splitStr_joinStrings '\n' (combinedTopics input file) hnonempty
      (fun s hs => (helem s hs).2)
  · unfold combinedTopics setFrom dedupFirst
    rw [dedupFirstAux_eq_setFromAux]
  · exact nodup_setFromAux [] _
  · intro hcon
    exact (helem "" hcon).1 rfl

/-- C1 witness: concrete instance of the amended invariant for input
`"orders,payments"` on an empty registry. -/
theorem topics_invocation_invariant_witness :
    splitStr '\n' (generateTopicsList "orders,payments" none)
      = combinedTopics "orders,payments" none :=
  (topics_invocation_invariant "orders,payments" none (by decide)).1

/- C2 -/

/-- C2 counterexample: submitting `"x, , y"` on an empty registry does not
yield the sequence `["x", "y"]` — the empty candidate is not dropped. -/
theorem topics_empty_candidate_cex :
    combinedTopics "x, , y" none ≠ ["x", "y"] := by decide

/-- C2 (amended): `kafka:topics` merges exactly the comma-separated fields
trimmed of surrounding whitespace, but empty candidates are kept, not
dropped: `"x, , y"` on an empty registry yields `["x", "", "y"]`; every
merged entry either came from the file or is a trimmed field, and
conversely. -/
theorem topics_input_parsing :
    newTopics "x, , y" = ["x", "", "y"]
    ∧ combinedTopics "x, , y" none = ["x", "", "y"]
    ∧ ∀ input file s, s ∈ combinedTopics input file
        ↔ s ∈ existingTopics file ∨ s ∈ newTopics input := by
  refine ⟨by decide, by decide, ?_⟩
  intro input file s
  unfold combinedTopics setFrom
  rw [mem_setFromAux s [] (existingTopics file ++ newTopics input)]
  simp [List.mem_append]

/- C3 -/

/-- C3: for duplicate-free `existing`, the merge of line 234 equals the
spec's description (existing, then the first appearances of the incoming
names not already present); the two spec examples hold. -/
theorem merge_matches_spec (ex inc : List String) (h : ex.Nodup) :
    Merge ex inc = mergeSpec ex inc
    ∧ Merge ["a", "b"] ["b", "c", "a"] = ["a", "b", "c"]
    ∧ (∀ L : List String, L.Nodup → Merge L L = L) := by
  refine ⟨Merge_eq_mergeSpec ex inc h, by decide, fun L hL => ?_⟩
  rw [Merge_eq_mergeSpec L L hL]
  unfold mergeSpec
  have hfil : L.filter (fun y => y ∉ L) = [] := by
    rw [List.filter_eq_nil_iff]
    intro a ha
    simp [ha]
  rw [hfil]
  simp [dedupFirst, dedupFirstAux]

/-- C3 witness: concrete instance of the merge refinement. -/
theorem merge_matches_spec_witness :
    Merge ["a", "b"] ["b", "c", "a"] = mergeSpec ["a", "b"] ["b", "c", "a"] :=
  (merge_matches_spec ["a", "b"] ["b", "c", "a"] (by decide)).1

/- C4 -/

/-- C4 counterexample: `["a\nb"]` is duplicate-free and has no empty entry,
yet saving and loading it returns `["a", "b"]`, not `["a\nb"]`: the claimed
round trip fails when an entry contains a newline. -/
theorem save_load_newline_cex :
    (["a\nb"] : List String).Nodup
    ∧ (∀ s ∈ (["a\nb"] : List String), s ≠ "")
    ∧ existingTopics (some (Save ["a\nb"])) ≠ ["a\nb"] := by decide

/-- C4 (amended): for every duplicate-free sequence whose entries are
non-empty and contain no newline character, saving and then loading the
file returns exactly the sequence. -/
theorem save_load_roundtrip (L : List String) (hnd : L.Nodup)
    (hne : ∀ s ∈ L, s ≠ "") (hnl : ∀ s ∈ L, '\n' ∉ s.data) :
    existingTopics (some (Save L)) = L := by
  rcases L with _ | ⟨a, L'⟩
  · decide
  · show filterBoolean (splitStr '\n' (Save (a :: L'))) = a :: L'
    unfold Save
    rw [splitStr_joinStrings '\n' (a :: L') (by simp) hnl]
    unfold filterBoolean
    rw [List.filter_eq_self]
    intro s hs
    simp [hne s hs]

/-- C4 witness: the round trip at `["orders", "payments"]`. -/
theorem save_load_roundtrip_witness :
    existingTopics (some (Save ["orders", "payments"])) = ["orders", "payments"] :=
  save_load_roundtrip ["orders", "payments"] (by decide) (by decide) (by decide)

/- C5 -/

/-- C5 counterexample: on the file content `" a"` the implemented load
returns `[" a"]`, not the trimmed line `["a"]` demanded by the claim. -/
theorem load_untrimmed_cex :
    existingTopics (some " a") ≠ loadTrimmedSpec (some " a") := by decide

/-- C5 (amended): `Load` returns the ordered subsequence of the file's
non-empty lines, without trimming them; an absent file yields the empty
sequence rather than an error. -/
theorem load_nonempty_lines (c : String) :
    existingTopics none = []
    ∧ List.Sublist (existingTopics (some c)) (splitStr '\n' c)
    ∧ (∀ s ∈ existingTopics (some c), s ≠ "")
    ∧ (∀ s, s ∈ existingTopics (some c) ↔ s ∈ splitStr '\n' c ∧ s ≠ "") := by
  refine ⟨rfl, List.filter_sublist _, ?_, ?_⟩
  · intro s hs
    rcases List.mem_filter.mp hs with ⟨_, hs2⟩
    simpa using hs2
  · intro s
    rw [show existingTopics (some c) = (splitStr '\n' c).filter (fun s => s ≠ "") from rfl]
    rw [List.mem_filter]
    simp

/-- C5 witness: a concrete consequence of the amended load description. -/
theorem load_nonempty_lines_witness :
    List.Sublist (existingTopics (some " a")) (splitStr '\n' " a") :=
  (load_nonempty_lines " a").2.1

/- C6 -/

/-- C6: if the registry loads as `pre ++ t :: post`, every creation in `pre`
succeeds and the creation of `t` fails, then `kafka:migrate` issues creation
requests exactly for `pre ++ [t]` in order, reports exactly one error, and
issues no request for any of the remaining topics. -/
theorem migrate_fail_fast (c : String) (fails : String → Option String)
    (pre : List String) (t : String) (post : List String) (msg : String)
    (hload : loadLines c = pre ++ t :: post)
    (hnd : (pre ++ t :: post).Nodup)
    (hpre : ∀ s ∈ pre, fails s = none)
    (hfail : fails t = some msg) :
    (kafkaMigrate (some c) fails).1
        = (pre ++ [t]).map (fun s => Action.createTopic s "localhost:9092")
    ∧ errCount (kafkaMigrate (some c) fails).2 = 1
    ∧ (∀ s ∈ post,
        Action.createTopic s "localhost:9092" ∉ (kafkaMigrate (some c) fails).1) := by
  have hmain := migrateLoop_fail_fast fails t msg post hfail pre hpre
  have heq : kafkaMigrate (some c) fails = migrateLoop fails (pre ++ t :: post) := by
    show migrateLoop fails (loadLines c) = _
    rw [hload]
  refine ⟨by rw [heq]; exact hmain.1, by rw [heq]; exact hmain.2, ?_⟩
  intro s hs hmem
  rw [heq, hmain.1] at hmem
  rcases List.mem_map.mp hmem with ⟨u, hu, hequ⟩
  simp only [Action.createTopic.injEq] at hequ
  have hus : u = s := hequ.1
  rcases List.nodup_append.mp hnd with ⟨hnp, hnt, hdisj⟩
  rcases List.mem_append.mp hu with hu1 | hu1
  · exact hdisj (hus ▸ hu1) (List.mem_cons_of_mem _ hs)
  · have hut : u = t := by simpa using hu1
    have htpost : t ∈ post := by
      rw [← hut, hus]
      exact hs
    exact (List.nodup_cons.mp hnt).1 htpost

/-- Broker behaviour for the C6 witness: creating `"orders"` fails. -/
def failsOrders : String → Option String :=
  fun s => if s = "orders" then some "boom" else none

/-- C6 witness: over the registry `["orders", "payments"]` with the first
creation failing, exactly one request (for `"orders"`) is issued and the
failure is reported once. -/
theorem migrate_fail_fast_witness :
    (kafkaMigrate (some "orders\npayments") failsOrders).1
      = [Action.createTopic "orders" "localhost:9092"]
    ∧ errCount (kafkaMigrate (some "orders\npayments") failsOrders).2 = 1
    ∧ Action.createTopic "payments" "localhost:9092"
        ∉ (kafkaMigrate (some "orders\npayments") failsOrders).1 :=
  ⟨(migrate_fail_fast "orders\npayments" failsOrders [] "orders" ["payments"]
      "boom" (by decide) (by decide) (by simp) (by decide)).1,
   (migrate_fail_fast "orders\npayments" failsOrders [] "orders" ["payments"]
      "boom" (by decide) (by decide) (by simp) (by decide)).2.1,
   (migrate_fail_fast "orders\npayments" failsOrders [] "orders" ["payments"]
      "boom" (by decide) (by decide) (by simp) (by decide)).2.2 "payments"
     (by decide)⟩

/- C7 -/

/-- C7: with no registry file, `kafka:migrate` reports the missing-file
error and dispatches no broker action, whatever the broker would do. -/
theorem migrate_missing_registry (fails : String → Option String) :
    (kafkaMigrate none fails).1 = []
    ∧ (kafkaMigrate none fails).2
        = [Report.error "Error: The topics.txt file does not exist."] :=
  ⟨rfl, rfl⟩

/-- C7 witness: the missing-file case at a concrete broker behaviour. -/
theorem migrate_missing_registry_witness :
    (kafkaMigrate none (fun _ => none)).1 = []
    ∧ (kafkaMigrate none (fun _ => none)).2
        = [Report.error "Error: The topics.txt file does not exist."] :=
  migrate_missing_registry (fun _ => none)

/- C8 -/

/-- C8: when the probe reports an existing container, `kafka:create`
reports "already exists" and dispatches nothing; when the container is
absent, it dispatches exactly one creation action with the fixed image and
the fixed 9092:9092 port mapping, and reports no error. -/
theorem create_container_idempotent (psAll : String) :
    (trimStr psAll ≠ "" →
      (createKafkaContainer psAll).1 = []
      ∧ (createKafkaContainer psAll).2
          = [Report.info "The container kafka-server already exists."])
    ∧ (trimStr psAll = "" →
      (createKafkaContainer psAll).1
          = [Action.createContainer "kafka-server" "apache/kafka:3.8.0" "9092:9092"]
      ∧ errCount (createKafkaContainer psAll).2 = 0) := by
  by_cases h : trimStr psAll = "" <;>
    simp [createKafkaContainer, h, errCount_info_cons, errCount_nil]

/-- C8 witness: concrete probe outputs for the existing and absent cases. -/
theorem create_container_idempotent_witness :
    (createKafkaContainer "abc").1 = []
    ∧ (createKafkaContainer "").1
        = [Action.createContainer "kafka-server" "apache/kafka:3.8.0" "9092:9092"] :=
  ⟨((create_container_idempotent "abc").1 (by decide)).1,
   ((create_container_idempotent "").2 (by decide)).1⟩

/- C9 -/

/-- C9: `kafka:start` dispatches the start action exactly when the probed
container exists and is not running; from Absent it reports the
"does not exist" error with no action, from Running it reports the
"already running" no-op with no action and no error. -/
theorem start_container_guarded (psAll psRunning : String) :
    ((startKafkaContainer psAll psRunning).1 = [Action.startContainer "kafka-server"]
        ↔ trimStr psAll ≠ "" ∧ trimStr psRunning = "")
    ∧ (trimStr psAll = "" →
        (startKafkaContainer psAll psRunning).1 = []
        ∧ (startKafkaContainer psAll psRunning).2
            = [Report.error "Error: The container does not exist."])
    ∧ (trimStr psAll ≠ "" → trimStr psRunning ≠ "" →
        (startKafkaContainer psAll psRunning).1 = []
        ∧ (startKafkaContainer psAll psRunning).2
            = [Report.info "The container kafka-server is already running."]
        ∧ errCount (startKafkaContainer psAll psRunning).2 = 0)
    ∧ (trimStr psAll ≠ "" → trimStr psRunning = "" →
        (startKafkaContainer psAll psRunning).1
          = [Action.startContainer "kafka-server"]) := by
  by_cases h1 : trimStr psAll = "" <;> by_cases h2 : trimStr psRunning = "" <;>
    simp [startKafkaContainer, h1, h2, errCount_info_cons, errCount_nil]

/-- C9 witness: concrete probe outputs for the Absent, Running and Stopped
cases. -/
theorem start_container_guarded_witness :
    (startKafkaContainer "" "").1 = []
    ∧ (startKafkaContainer "abc" "abc").1 = []
    ∧ (startKafkaContainer "abc" "").1 = [Action.startContainer "kafka-server"] :=
  ⟨((start_container_guarded "" "").2.1 (by decide)).1,
   ((start_container_guarded "abc" "abc").2.2.1 (by decide) (by decide)).1,
   (start_container_guarded "abc" "").2.2.2 (by decide) (by decide)⟩

/- C10 -/

/-- C10: a registry file that loads to no non-empty line makes
`kafka:migrate` a silent no-op (no action, no report), while the absent
file is reported as exactly one error. -/
theorem migrate_empty_registry (c : String) (fails : String → Option String)
    (h : loadLines c = []) :
    (kafkaMigrate (some c) fails).1 = []
    ∧ (kafkaMigrate (some c) fails).2 = []
    ∧ errCount (kafkaMigrate none fails).2 = 1 := by
  refine ⟨?_, ?_, ?_⟩
  · show (migrateLoop fails (loadLines c)).1 = []
    rw [h]
    rfl
  · show (migrateLoop fails (loadLines c)).2 = []
    rw [h]
    rfl
  · show errCount [Report.error "Error: The topics.txt file does not exist."] = 1
    rw [errCount_error_cons, errCount_nil]

/-- C10 witness: the file content `"\n"` loads to no topic and migrating it
does nothing. -/
theorem migrate_empty_registry_witness :
    (kafkaMigrate (some "\n") (fun _ => none)).1 = []
    ∧ (kafkaMigrate (some "\n") (fun _ => none)).2 = [] :=
  ⟨(migrate_empty_registry "\n" (fun _ => none) (by decide)).1,
   (migrate_empty_registry "\n" (fun _ => none) (by decide)).2.1⟩

end Nodisan
